import Mathlib

/-!
Verification of klick2ardour.py, a converter from klick tempomap text files
to the TempoMap/Locations sections of an Ardour session document.

The development shallowly embeds the two components of the script:

* `KlickTempomapReader` (the line parser built on a single regular
  expression) is embedded as an executable recursive-descent matcher over
  `List Char`.  The regular expression has, at every optional group, the
  property that committing to a successful group match can never turn an
  otherwise-matching line into a non-matching one (each group is terminated
  by a character that no later part of the pattern can consume), so the
  backtracking engine is equivalent to the committed one-pass matcher
  written here; the correspondence is argued group by group in comments.
  Lines are modelled without their trailing newline: the final `\s*(#.*)?$`
  of the pattern treats a trailing newline exactly like end of input.

* `ArdourTempomapWriter` is embedded as pure state-passing functions.
  Python floats are modelled as exact arithmetic (`ℚ` for parsed values,
  `ℝ` where `math.log` enters); operations that raise in Python
  (`ZeroDivisionError` on division by zero, `ValueError` from `math.log`
  on a non-positive argument, which abort the script before any output is
  written) are modelled by `Option`/`Except` with `none`/`error` meaning
  the run dies with no output.
-/

namespace Klick2Ardour

/-! ## Parsed tempomap entries (the `struct` built by `parse_entry`) -/

/-- One tempomap entry, with the exact fields and defaults of
`KlickTempomapReader.parse_entry`: `label` is `None` when the group is
unmatched, `beats`/`denom` default to 4, `tempo2` defaults to `0.0`
(the script uses `0.0` as the "no ramp" sentinel). -/
structure Entry where
  label : Option String
  bars : ℕ
  beats : ℕ
  denom : ℕ
  tempo : ℚ
  tempo2 : ℚ
deriving DecidableEq, Repr

/-! ## Character classes of the regular expression -/

/-- Python `\s` (no `re.UNICODE`): space, tab, newline, carriage return,
vertical tab, form feed. -/
def isSpaceChar (c : Char) : Bool :=
  c == ' ' || c == '\t' || c == '\n' || c == '\r' || c == '\x0b' || c == '\x0c'

/-- Python `\d`. -/
def isDigitChar (c : Char) : Bool :=
  '0' ≤ c && c ≤ '9'

/-- Python `\w` (no `re.UNICODE`): ASCII letters, digits, underscore. -/
def isWordChar (c : Char) : Bool :=
  ('a' ≤ c && c ≤ 'z') || ('A' ≤ c && c ≤ 'Z') || isDigitChar c || c == '_'

/-- The label class `[\w-]`. -/
def isLabelChar (c : Char) : Bool :=
  isWordChar c || c == '-'

/-- The pattern class `[Xx\.]`. -/
def isPatternChar (c : Char) : Bool :=
  c == 'X' || c == 'x' || c == '.'

/-! ## Token readers (maximal munch, as the greedy quantifiers match) -/

/-- Numeric value of a digit run. -/
def digitsVal (l : List Char) : ℕ :=
  l.foldl (fun n c => 10 * n + (c.toNat - '0'.toNat)) 0

/-- Token `\d+`: a non-empty maximal digit run.  Greedy matching takes the maximal
run; shortening it on backtrack would leave a digit where every following
pattern element requires a non-digit, so the maximal run is the only one
the engine can use. -/
def readDigits (cs : List Char) : Option (ℕ × List Char) :=
  let ds := cs.takeWhile isDigitChar
  if ds.isEmpty then none else some (digitsVal ds, cs.dropWhile isDigitChar)

/-- Token `\d+(\.\d+)?`: integer part, then an optional fraction.  If the
fraction group fails (a dot not followed by digits) the engine leaves the
dot unconsumed, which no later pattern element can match, so committing to
a successful fraction is equivalent to backtracking. -/
def readNumber (cs : List Char) : Option (ℚ × List Char) :=
  match readDigits cs with
  | none => none
  | some (n, rest) =>
    match rest with
    | '.' :: rest2 =>
      let fs := rest2.takeWhile isDigitChar
      if fs.isEmpty then some ((n : ℚ), rest)
      else some ((n : ℚ) + (digitsVal fs : ℚ) / (10 : ℚ) ^ fs.length,
                 rest2.dropWhile isDigitChar)
    | _ => some ((n : ℚ), rest)

/-- Token `\s*`. -/
def dropSpaces (cs : List Char) : List Char :=
  cs.dropWhile isSpaceChar

/-- Token `\s+`: at least one whitespace character, then maximal munch. -/
def readSpaces1 : List Char → Option (List Char)
  | [] => none
  | c :: r => if isSpaceChar c then some (r.dropWhile isSpaceChar) else none

/-- The optional group `(\s*(?P<label>[\w-]+):)?`.  It matches exactly when
the line starts with `\s*[\w-]+:`; a colon occurs in no later pattern
element, so the engine can never succeed by skipping a matchable label. -/
def tryLabel (cs : List Char) : Option String × List Char :=
  let cs1 := dropSpaces cs
  let run := cs1.takeWhile isLabelChar
  if run.isEmpty then (none, cs)
  else
    match cs1.dropWhile isLabelChar with
    | ':' :: r => (some (String.mk run), r)
    | _ => (none, cs)

/-- The optional meter group `(\s+(?P<beats>\d+)/(?P<denom>\d+))?`.  If its
shape `\s+\d+/\d+` is present, skipping it would make the required tempo
consume the beats digits and then fail at the slash, which nothing later
matches, so committing on success is equivalent to backtracking. -/
def tryMeter (cs : List Char) : Option (ℕ × ℕ) × List Char :=
  match readSpaces1 cs with
  | none => (none, cs)
  | some cs1 =>
    match readDigits cs1 with
    | none => (none, cs)
    | some (b, r1) =>
      match r1 with
      | '/' :: r2 =>
        match readDigits r2 with
        | none => (none, cs)
        | some (d, r3) => (some (b, d), r3)
      | _ => (none, cs)

/-- The optional ramp target `(-(?P<tempo2>\d+(\.\d+)?))?`.  A hyphen is
matched by no later pattern element, so the group is committed when its
shape is present. -/
def tryTempo2 (cs : List Char) : Option ℚ × List Char :=
  match cs with
  | '-' :: r =>
    match readNumber r with
    | none => (none, cs)
    | some (q, r2) => (some q, r2)
  | _ => (none, cs)

/-- The optional group `(\s+(?P<pattern>[Xx\.]+))?` (value unused by the
converter). -/
def tryPattern (cs : List Char) : List Char :=
  match readSpaces1 cs with
  | none => cs
  | some cs1 =>
    let run := cs1.takeWhile isPatternChar
    if run.isEmpty then cs else cs1.dropWhile isPatternChar

/-- The optional group `(\s+(?P<volume>\d+(\.d+)?))?`.  The source pattern
has `\.d+` rather than `\.\d+`: the fractional part is a dot followed by
literal letters `d`.  The embedding reproduces that. -/
def tryVolume (cs : List Char) : List Char :=
  match readSpaces1 cs with
  | none => cs
  | some cs1 =>
    match readDigits cs1 with
    | none => cs
    | some (_, r1) =>
      match r1 with
      | '.' :: r2 =>
        let ds := r2.takeWhile (fun c => c == 'd')
        if ds.isEmpty then r1 else r2.dropWhile (fun c => c == 'd')
      | _ => r1

/-- The tail `\s*(#.*)?$` of both patterns (lines carry no newline, and
`.*` consumes everything up to the end of the line). -/
def checkEnd (cs : List Char) : Bool :=
  match dropSpaces cs with
  | [] => true
  | '#' :: _ => true
  | _ => false

/-- The full entry pattern `KlickTempomapReader.regex`, compiled group by
group.  Returns the `struct` that `parse_entry` builds from the match,
with its defaults (`beats`/`denom` 4, `tempo2` 0.0, `label` `None`). -/
def matchEntry (cs : List Char) : Option Entry :=
  let lbl := (tryLabel cs).1
  let cs0 := dropSpaces (tryLabel cs).2
  match readDigits cs0 with
  | none => none
  | some (bars, cs1) =>
    let mtr := (tryMeter cs1).1
    let cs2 := (tryMeter cs1).2
    match readSpaces1 cs2 with
    | none => none
    | some cs3 =>
      match readNumber cs3 with
      | none => none
      | some (tempo, cs4) =>
        let t2 := (tryTempo2 cs4).1
        let cs5 := (tryTempo2 cs4).2
        let cs6 := tryVolume (tryPattern cs5)
        if checkEnd cs6 then
          some { label := lbl, bars := bars,
                 beats := (mtr.map Prod.fst).getD 4,
                 denom := (mtr.map Prod.snd).getD 4,
                 tempo := tempo,
                 tempo2 := t2.getD 0 }
        else none

/-- Method `KlickTempomapReader.is_blank`: the line matches `^\s*(#.*)?$`. -/
def is_blank (l : String) : Bool :=
  checkEnd l.data

/-- Python `str.strip()`: remove leading and trailing whitespace. -/
def pyStrip (l : String) : String :=
  String.mk (((l.data.dropWhile isSpaceChar).reverse.dropWhile isSpaceChar).reverse)

/-- The fixed text of the parse-failure message (the source spells the
first word with a contraction; the contraction is expanded here, the
formatted-in stripped line is reproduced exactly). -/
def parseErrMsg (l : String) : String :=
  "could not parse tempomap entry:\n" ++ pyStrip l

/-- Method `KlickTempomapReader.parse_entry`: a non-matching line calls
`sys.exit` with a message naming the stripped line, which aborts the whole
read; modelled as `Except.error`. -/
def parse_entry (l : String) : Except String Entry :=
  match matchEntry l.data with
  | none => Except.error (parseErrMsg l)
  | some e => Except.ok e

/-- Parse a list of lines in order, aborting at the first failure (the list
comprehension in `read` evaluates `parse_entry` left to right and the first
`sys.exit` terminates with no entries produced). -/
def parseAll : List String → Except String (List Entry)
  | [] => Except.ok []
  | l :: ls =>
    match parse_entry l with
    | Except.error msg => Except.error msg
    | Except.ok e =>
      match parseAll ls with
      | Except.error msg => Except.error msg
      | Except.ok es => Except.ok (e :: es)

/-- Method `KlickTempomapReader.read`: blank/comment lines are skipped, all other
lines are parsed in order. -/
def read (lines : List String) : Except String (List Entry) :=
  parseAll (lines.filter (fun l => !is_blank l))

/-! ## Substring helper (for stating "the message contains the line") -/

/-- Predicate `leadEq s b`: `s` is a leading segment of `b`. -/
def leadEq : List Char → List Char → Bool
  | [], _ => true
  | _ :: _, [] => false
  | a :: s, b :: t => a == b && leadEq s t

/-- Predicate `hasSub small big`: `small` occurs contiguously inside `big`. -/
def hasSub (small : List Char) : List Char → Bool
  | [] => leadEq small []
  | c :: rest => leadEq small (c :: rest) || hasSub small rest

/-! ## Converter data model (`ArdourTempomapWriter`) -/

/-- A `<Tempo>` element as `write_tempo` emits it: `beats-per-minute`,
`movable` (the source computes yes when `bar != 0 and beat != 0`, no otherwise),
`start` = `bar+1|beat+1|0` kept here in the internal 0-indexed form. -/
structure TempoPt where
  bpm : ℝ
  movable : Bool
  bar : ℕ
  beat : ℕ

/-- A `<Meter>` element as `write_meter` emits it: `beats-per-bar`,
`note-type` = denom, `movable` = yes exactly when `bar != 0`,
`start` = `bar+1|1|0`. -/
structure MeterPt where
  beats : ℕ
  denom : ℕ
  movable : Bool
  bar : ℕ

/-- A child of the `<TempoMap>` node, in emission order. -/
inductive TMItem where
  | tempo : TempoPt → TMItem
  | meter : MeterPt → TMItem

/-- A child of the `<Locations>` node.  Markers written by `write_marker`
have `start = end`, `flags = "IsMark"`, `locked = "no"` and a fresh id. -/
structure Location where
  name : String
  start : ℝ
  stop : ℝ
  flags : String
  locked : String
  id : ℕ

/-- The conversion accumulator built in `ArdourTempomapWriter.write`. -/
structure State where
  frames : ℝ
  bars : ℕ
  beats : ℕ
  denom : ℕ
  tempo : ℚ

/-- The initial accumulator `struct(frames = 0, bars = 0, beats = 0, denom = 0, tempo = 0)`. -/
def initState : State := ⟨0, 0, 0, 0, 0⟩

/-- The session document as the writer sees it: the two root attributes it
reads, the `<TempoMap>` section and the `<Locations>` section (the writer
assumes both sections are present; a malformed document makes the script
die before writing, outside this model). -/
structure Doc where
  samplerate : ℚ
  id_counter : ℕ
  tempomap : List TMItem
  locations : List Location

/-- Method `ArdourTempomapWriter.write_tempo` (element construction only; the
element is appended to the `<TempoMap>` node by the caller). -/
def write_tempo (bar beat : ℕ) (tempo : ℝ) : TempoPt :=
  { bpm := tempo, movable := (bar != 0) && (beat != 0), bar := bar, beat := beat }

/-- Method `ArdourTempomapWriter.write_meter`. -/
def write_meter (bar beats denom : ℕ) : MeterPt :=
  { beats := beats, denom := denom, movable := bar != 0, bar := bar }

/-- Method `ArdourTempomapWriter.write_marker` with the id it is allocated. -/
def write_marker (frame : ℝ) (label : String) (c : ℕ) : Location :=
  { name := label, start := frame, stop := frame, flags := "IsMark",
    locked := "no", id := c }

/-! ## The logarithmic-mean helper and the duration formulas -/

/-- The expression `(a - b) / (math.log(a) - math.log(b))` as the script
computes it (inline in `entry_frames` and `average_tempo`).  `math.log`
raises `ValueError` on a non-positive argument; for positive arguments the
log difference is zero exactly when `a = b` (`Real.log` is injective on
positives), and then the division raises `ZeroDivisionError`.  Either
exception kills the script before any output is written: `none`. -/
noncomputable def t_eff (a b : ℚ) : Option ℝ :=
  if a ≤ 0 ∨ b ≤ 0 then none
  else if a = b then none
  else some (((a : ℝ) - (b : ℝ)) / (Real.log (a : ℝ) - Real.log (b : ℝ)))

/-- The linear interpolation `entry.tempo + d * k / n` of
`average_tempo` (with `d = tempo2 - tempo`, `n = bars * beats`); the
boundary tempos of beat `x` are `stepT e x` and `stepT e (x+1)`. -/
def stepT (e : Entry) (k : ℕ) : ℚ :=
  e.tempo + (e.tempo2 - e.tempo) * (k : ℚ) / ((e.bars * e.beats : ℕ) : ℚ)

/-- Method `ArdourTempomapWriter.average_tempo`: the logarithmic mean of the two
boundary tempos of beat `beat`.  When `bars * beats = 0` the Python
division by `n` raises `ZeroDivisionError` (the guard is unreachable from
`write_tempomap_entry`, which only calls this for `beat < bars * beats`). -/
noncomputable def average_tempo (e : Entry) (beat : ℕ) : Option ℝ :=
  if e.bars * e.beats = 0 then none
  else t_eff (stepT e beat) (stepT e (beat + 1))

/-- Method `ArdourTempomapWriter.entry_frames`: elapsed frames for one entry.
`entry.tempo2` is falsy exactly when it is `0.0`; the effective tempo is
the entry tempo for a constant entry and the logarithmic mean of the two
tempos for a ramp; `secs * samplerate` with
`secs = bars * beats * 240.0 / (t * denom)` (division by zero raises). -/
noncomputable def entry_frames (sr : ℚ) (e : Entry) : Option ℝ :=
  if e.tempo2 = 0 then
    -- the Python division raises exactly when `tempo * denom == 0`,
    -- i.e. when one of the factors is zero
    if e.tempo = 0 ∨ e.denom = 0 then none
    else some ((e.bars : ℝ) * (e.beats : ℝ) * 240 /
               ((e.tempo : ℝ) * (e.denom : ℝ)) * (sr : ℝ))
  else
    match t_eff e.tempo e.tempo2 with
    | none => none
    | some t =>
      if t * (e.denom : ℝ) = 0 then none
      else some ((e.bars : ℝ) * (e.beats : ℝ) * 240 /
                 (t * (e.denom : ℝ)) * (sr : ℝ))

/-- Map a fallible element function over a list, failing if any element
fails (the ramp loop of `write_tempomap_entry` dies at the first
`average_tempo` exception; output only materialises at the final
`tree.write`, so element order inside the failure does not matter). -/
def optionMapList (f : α → Option β) : List α → Option (List β)
  | [] => some []
  | a :: l =>
    match f a with
    | none => none
    | some b =>
      match optionMapList f l with
      | none => none
      | some bl => some (b :: bl)

/-- Method `ArdourTempomapWriter.write_tempomap_entry`: the tempo elements (first
component, `none` when the ramp loop raises) and meter elements (second
component) emitted for one entry from state `s`.  A constant entry whose
tempo differs from the state tempo emits one tempo point at
`(state.bars, 0)`; a ramp entry emits one per beat at
`(state.bars + x / beats, x % beats)`; a meter point is emitted when
`(beats, denom)` changed. -/
noncomputable def write_tempomap_entry (s : State) (e : Entry) :
    Option (List TempoPt) × List MeterPt :=
  (if e.tempo ≠ s.tempo ∧ e.tempo2 = 0 then
     some [write_tempo s.bars 0 (e.tempo : ℝ)]
   else if e.tempo2 ≠ 0 then
     optionMapList
       (fun x => (average_tempo e x).map
         (fun t => write_tempo (s.bars + x / e.beats) (x % e.beats) t))
       (List.range (e.bars * e.beats))
   else some [],
   if (e.beats, e.denom) ≠ (s.beats, s.denom) then
     [write_meter s.bars e.beats e.denom]
   else [])

/-- The state replacement at the bottom of the entry loop in
`ArdourTempomapWriter.write`: frames advance by `entry_frames`, bars
accumulate, meter is taken from the entry, and the state tempo is the
entry tempo for a constant entry but the `0.0` sentinel after a ramp. -/
noncomputable def advance (sr : ℚ) (s : State) (e : Entry) : Option State :=
  match entry_frames sr e with
  | none => none
  | some f =>
    some { frames := s.frames + f, bars := s.bars + e.bars,
           beats := e.beats, denom := e.denom,
           tempo := if e.tempo2 = 0 then e.tempo else 0 }

/-- The marker elements `if entry.label: self.write_marker(...)` emits for
one entry (one for a labelled entry, none otherwise). -/
def labelMarks (s : State) (c : ℕ) : Option String → List Location
  | some lbl => [write_marker s.frames lbl c]
  | none => []

/-- The id counter after the optional marker emission. -/
def labelCount (c : ℕ) : Option String → ℕ
  | some _ => c + 1
  | none => c

/-- The entry loop of `ArdourTempomapWriter.write`: walk the entries from
state `s` with id counter `c`, collecting the `<TempoMap>` children in
emission order, the new markers, the final state and the final counter. -/
noncomputable def runEntries (sr : ℚ) (s : State) (c : ℕ) :
    List Entry → Option (List TMItem × List Location × State × ℕ)
  | [] => some ([], [], s, c)
  | e :: rest =>
    match (write_tempomap_entry s e).1 with
    | none => none
    | some tps =>
      match advance sr s e with
      | none => none
      | some s1 =>
        match runEntries sr s1 (labelCount c e.label) rest with
        | none => none
        | some (items2, mks2, s2, c2) =>
          some ((tps.map TMItem.tempo ++
              (write_tempomap_entry s e).2.map TMItem.meter) ++ items2,
            labelMarks s c e.label ++ mks2, s2, c2)

/-- Method `ArdourTempomapWriter.write` on the session document: replace the
`<TempoMap>` section, remove the `IsMark`-flagged children of
`<Locations>` (others keep their order), run the entry walk from the zero
state with the document id counter, append the new markers, and write the
final counter back to the root attribute. -/
noncomputable def write (doc : Doc) (entries : List Entry) : Option Doc :=
  match runEntries doc.samplerate initState doc.id_counter entries with
  | none => none
  | some (items, mks, _, c2) =>
    some { samplerate := doc.samplerate, id_counter := c2, tempomap := items,
           locations := doc.locations.filter (fun l => l.flags != "IsMark") ++ mks }

/-- The marker section of a document: its `IsMark`-flagged locations. -/
def markersOf (d : Doc) : List Location :=
  d.locations.filter (fun l => l.flags == "IsMark")

/-- A marker with its id attribute erased. -/
def stripId (l : Location) : String × ℝ × ℝ × String × String :=
  (l.name, l.start, l.stop, l.flags, l.locked)

/-- A run of `k` sequential ids starting at `c`. -/
def seqIds (c : ℕ) : ℕ → List ℕ
  | 0 => []
  | k + 1 => c :: seqIds (c + 1) k

/-- The data-model invariant of §3 of the spec on entries that reach the
converter, sharpened by the ramp formulas: positive tempo, at least one
bar/beat and a positive denominator, and a ramp target that is either the
unset sentinel `0` or positive and distinct from the start tempo (equal
bounds make the log-mean division raise). -/
def ValidEntry (e : Entry) : Prop :=
  0 < e.tempo ∧ 1 ≤ e.bars ∧ 1 ≤ e.beats ∧ 1 ≤ e.denom ∧
    (e.tempo2 = 0 ∨ (0 < e.tempo2 ∧ e.tempo2 ≠ e.tempo))

instance : DecidablePred ValidEntry := fun e => by
  unfold ValidEntry; infer_instance

/-- The third emitted `<TempoMap>` child in the two-entry example used for
the movable-flag claim: its movable flag together with its 0-indexed
position. -/
def itemInfo : TMItem → Bool × ℕ × ℕ
  | TMItem.tempo p => (p.movable, p.bar, p.beat)
  | TMItem.meter m => (m.movable, m.bar, 0)

/-- A one-entry tempomap with a label, used for concrete runs. -/
def exampleEntries : List Entry := [⟨some ("A"), 1, 4, 4, 120, 0⟩]

/-- A pristine session document (empty tempo map, no locations). -/
def exampleDoc : Doc := ⟨48000, 0, [], []⟩

/-- A three-entry tempomap with two labels, used for the marker-order
witness. -/
def exampleEntries3 : List Entry :=
  [⟨some ("A"), 1, 4, 4, 120, 0⟩, ⟨none, 1, 4, 4, 140, 0⟩,
   ⟨some ("B"), 1, 4, 4, 150, 0⟩]

/-- A session document that already carries a tempo map, a non-marker
location and a stale marker, used for the write-contract witness. -/
def exampleDoc2 : Doc :=
  ⟨48000, 5, [TMItem.meter ⟨9, 8, true, 3⟩],
   [⟨"Other", 7, 9, "IsRange", "yes", 2⟩, ⟨"Old", 1, 1, "IsMark", "no", 3⟩]⟩

/-- The document produced by running the converter on `exampleEntries`
against `exampleDoc` (checked definitionally in the rerun witness). -/
def exD1 : Doc :=
  { samplerate := 48000, id_counter := 1,
    tempomap := [TMItem.tempo (write_tempo 0 0 ((120 : ℚ) : ℝ)),
                 TMItem.meter (write_meter 0 4 4)],
    locations := [write_marker 0 ("A") 0] }

/-! ## The logarithmic mean: bounds between its arguments -/

/-- For `0 < x < y` the logarithmic mean `(y - x) / (log y - log x)` lies
between `x` and `y`. -/
theorem log_mean_bounds {x y : ℝ} (hx : 0 < x) (hxy : x < y) :
    x ≤ (y - x) / (Real.log y - Real.log x) ∧
      (y - x) / (Real.log y - Real.log x) ≤ y := by
  have hy : 0 < y := hx.trans hxy
  have hD : 0 < Real.log y - Real.log x :=
    sub_pos.2 (Real.log_lt_log hx hxy)
  constructor
  · rw [le_div_iff₀ hD]
    have h1 : Real.log (y / x) ≤ y / x - 1 :=
      Real.log_le_sub_one_of_pos (div_pos hy hx)
    have h2 : Real.log (y / x) = Real.log y - Real.log x :=
      Real.log_div (ne_of_gt hy) (ne_of_gt hx)
    calc x * (Real.log y - Real.log x) = x * Real.log (y / x) := by rw [h2]
      _ ≤ x * (y / x - 1) := mul_le_mul_of_nonneg_left h1 hx.le
      _ = y - x := by field_simp
  · rw [div_le_iff₀ hD]
    have h1 : Real.log (x / y) ≤ x / y - 1 :=
      Real.log_le_sub_one_of_pos (div_pos hx hy)
    have h2 : Real.log (x / y) = Real.log x - Real.log y :=
      Real.log_div (ne_of_gt hx) (ne_of_gt hy)
    have h3 : 1 - x / y ≤ Real.log y - Real.log x := by
      rw [h2] at h1; linarith
    calc y - x = y * (1 - x / y) := by field_simp
      _ ≤ y * (Real.log y - Real.log x) := mul_le_mul_of_nonneg_left h3 hy.le

/-- On positive distinct arguments `t_eff` returns the log-mean value. -/
theorem t_eff_eq_some {a b : ℚ} (ha : 0 < a) (hb : 0 < b) (hab : a ≠ b) :
    t_eff a b =
      some (((a : ℝ) - (b : ℝ)) / (Real.log (a : ℝ) - Real.log (b : ℝ))) := by
  have h1 : ¬(a ≤ 0 ∨ b ≤ 0) := by push_neg; exact ⟨ha, hb⟩
  unfold t_eff
  rw [if_neg h1, if_neg hab]

/-- On positive distinct arguments `t_eff` succeeds with a positive value
lying between the two arguments. -/
theorem t_eff_between {a b : ℚ} (ha : 0 < a) (hb : 0 < b) (hab : a ≠ b) :
    ∃ t : ℝ, t_eff a b = some t ∧ 0 < t ∧
      (a < b → (a : ℝ) ≤ t ∧ t ≤ (b : ℝ)) ∧
      (b < a → (b : ℝ) ≤ t ∧ t ≤ (a : ℝ)) := by
  refine ⟨_, t_eff_eq_some ha hb hab, ?_⟩
  rcases lt_or_gt_of_ne hab with h | h
  · have ha' : (0 : ℝ) < (a : ℝ) := by exact_mod_cast ha
    have h' : (a : ℝ) < (b : ℝ) := by exact_mod_cast h
    have hbd := log_mean_bounds ha' h'
    have hval : ((a : ℝ) - (b : ℝ)) / (Real.log (a : ℝ) - Real.log (b : ℝ))
        = ((b : ℝ) - (a : ℝ)) / (Real.log (b : ℝ) - Real.log (a : ℝ)) := by
      rw [show (a : ℝ) - (b : ℝ) = -((b : ℝ) - (a : ℝ)) by ring,
          show Real.log (a : ℝ) - Real.log (b : ℝ)
              = -(Real.log (b : ℝ) - Real.log (a : ℝ)) by ring,
          neg_div_neg_eq]
    rw [hval]
    exact ⟨lt_of_lt_of_le ha' hbd.1, fun _ => hbd,
      fun hba => absurd h (lt_asymm (by exact_mod_cast hba : b < a))⟩
  · have hb' : (0 : ℝ) < (b : ℝ) := by exact_mod_cast hb
    have h' : (b : ℝ) < (a : ℝ) := by exact_mod_cast h
    have hbd := log_mean_bounds hb' h'
    exact ⟨lt_of_lt_of_le hb' hbd.1,
      fun hab2 => absurd h (lt_asymm (by exact_mod_cast hab2 : a < b)),
      fun _ => hbd⟩

/-! ## Interpolated beat tempos inside a ramp -/

/-- The interpolated tempo stays positive while the beat index stays inside
the entry (convex combination of the two positive tempos). -/
theorem stepT_pos {e : Entry} (h1 : 0 < e.tempo) (h2 : 0 < e.tempo2) {k : ℕ}
    (hk : k ≤ e.bars * e.beats) : 0 < stepT e k := by
  unfold stepT
  rcases Nat.eq_zero_or_pos (e.bars * e.beats) with hn | hn
  · have hk0 : k = 0 := Nat.le_zero.mp (hn ▸ hk)
    subst hk0
    simpa using h1
  · have hn' : (0 : ℚ) < ((e.bars * e.beats : ℕ) : ℚ) := by exact_mod_cast hn
    have hk' : (k : ℚ) ≤ ((e.bars * e.beats : ℕ) : ℚ) := by exact_mod_cast hk
    have hk0 : (0 : ℚ) ≤ (k : ℚ) := Nat.cast_nonneg k
    set n : ℚ := ((e.bars * e.beats : ℕ) : ℚ) with hndef
    have hn0 : n ≠ 0 := ne_of_gt hn'
    have key : e.tempo + (e.tempo2 - e.tempo) * (k : ℚ) / n
        = (e.tempo * (n - (k : ℚ)) + e.tempo2 * (k : ℚ)) / n := by
      field_simp
      ring
    rw [key]
    apply div_pos _ hn'
    rcases eq_or_lt_of_le hk0 with hk00 | hkpos
    · rw [← hk00]
      simpa using mul_pos h1 hn'
    · nlinarith [mul_nonneg h1.le (sub_nonneg.2 hk'), mul_pos h2 hkpos]

/-- Consecutive interpolated tempos differ by the constant step `d / n`. -/
theorem stepT_succ_sub {e : Entry} (hn : e.bars * e.beats ≠ 0) (k : ℕ) :
    stepT e (k + 1) - stepT e k =
      (e.tempo2 - e.tempo) / ((e.bars * e.beats : ℕ) : ℚ) := by
  have hn' : ((e.bars * e.beats : ℕ) : ℚ) ≠ 0 := Nat.cast_ne_zero.2 hn
  unfold stepT
  set n : ℚ := ((e.bars * e.beats : ℕ) : ℚ) with hndef
  push_cast
  field_simp
  ring

/-- For a proper ramp the interpolation takes distinct values at
consecutive beat indices. -/
theorem stepT_succ_ne {e : Entry} (hn : e.bars * e.beats ≠ 0)
    (hd : e.tempo2 ≠ e.tempo) (k : ℕ) : stepT e k ≠ stepT e (k + 1) := by
  intro hEq
  have h0 : (e.tempo2 - e.tempo) / ((e.bars * e.beats : ℕ) : ℚ) = 0 := by
    rw [← stepT_succ_sub hn k, hEq, sub_self]
  rcases div_eq_zero_iff.mp h0 with h | h
  · exact hd (by linarith [sub_eq_zero.mp h])
  · exact Nat.cast_ne_zero.2 hn h

/-- C5: for a ramp entry (both tempos positive and distinct) the staircase
of per-beat tempos emitted by `average_tempo` over adjacent in-range beats
is non-decreasing when `tempo2 > tempo` and non-increasing when
`tempo2 < tempo`. -/
theorem ramp_staircase_monotone (e : Entry) (x : ℕ) (h1 : 0 < e.tempo)
    (h2 : 0 < e.tempo2) (hne : e.tempo ≠ e.tempo2)
    (hx : x + 2 ≤ e.bars * e.beats) :
    ∃ u v, average_tempo e x = some u ∧ average_tempo e (x + 1) = some v ∧
      (e.tempo < e.tempo2 → u ≤ v) ∧ (e.tempo2 < e.tempo → v ≤ u) := by
  have hn : e.bars * e.beats ≠ 0 := by omega
  have hn' : ((e.bars * e.beats : ℕ) : ℚ) ≠ 0 := Nat.cast_ne_zero.2 hn
  have hnpos : (0 : ℚ) < ((e.bars * e.beats : ℕ) : ℚ) := by
    exact_mod_cast Nat.pos_of_ne_zero hn
  have p0 : 0 < stepT e x := stepT_pos h1 h2 (by omega)
  have p1 : 0 < stepT e (x + 1) := stepT_pos h1 h2 (by omega)
  have p2 : 0 < stepT e (x + 2) := stepT_pos h1 h2 (by omega)
  have d01 := stepT_succ_sub hn x
  have d12 := stepT_succ_sub hn (x + 1)
  have ne01 : stepT e x ≠ stepT e (x + 1) := stepT_succ_ne hn (Ne.symm hne) x
  have ne12 : stepT e (x + 1) ≠ stepT e (x + 1 + 1) := stepT_succ_ne hn (Ne.symm hne) (x + 1)
  have hx2 : x + 1 + 1 = x + 2 := rfl
  rw [hx2] at ne12
  obtain ⟨u, hu, hupos, huf, hub⟩ := t_eff_between p0 p1 ne01
  obtain ⟨v, hv, hvpos, hvf, hvb⟩ := t_eff_between p1 p2 ne12
  have hau : average_tempo e x = some u := by
    unfold average_tempo
    rw [if_neg hn]
    exact hu
  have hav : average_tempo e (x + 1) = some v := by
    unfold average_tempo
    rw [if_neg hn, hx2]
    exact hv
  refine ⟨u, v, hau, hav, ?_, ?_⟩
  · intro hlt
    have hstep : 0 < (e.tempo2 - e.tempo) / ((e.bars * e.beats : ℕ) : ℚ) :=
      div_pos (sub_pos.2 hlt) hnpos
    have l01 : stepT e x < stepT e (x + 1) := by
      have : 0 < stepT e (x + 1) - stepT e x := by rw [d01]; exact hstep
      linarith
    have l12 : stepT e (x + 1) < stepT e (x + 2) := by
      have : 0 < stepT e (x + 1 + 1) - stepT e (x + 1) := by rw [d12]; exact hstep
      rw [hx2] at this
      linarith
    have hu2 : u ≤ ((stepT e (x + 1) : ℚ) : ℝ) := (huf l01).2
    have hv1 : ((stepT e (x + 1) : ℚ) : ℝ) ≤ v := (hvf l12).1
    linarith
  · intro hlt
    have hstep : (e.tempo2 - e.tempo) / ((e.bars * e.beats : ℕ) : ℚ) < 0 :=
      div_neg_of_neg_of_pos (sub_neg.2 hlt) hnpos
    have l01 : stepT e (x + 1) < stepT e x := by
      have : stepT e (x + 1) - stepT e x < 0 := by rw [d01]; exact hstep
      linarith
    have l12 : stepT e (x + 2) < stepT e (x + 1) := by
      have : stepT e (x + 1 + 1) - stepT e (x + 1) < 0 := by rw [d12]; exact hstep
      rw [hx2] at this
      linarith
    have hu2 : ((stepT e (x + 1) : ℚ) : ℝ) ≤ u := (hub l01).1
    have hv1 : v ≤ ((stepT e (x + 1) : ℚ) : ℝ) := (hvb l12).2
    linarith

/-- Witness for C5 at the concrete ramp entry `1 4/4 100-200`, beats 0, 1. -/
theorem ramp_staircase_monotone_witness :
    ∃ u v, average_tempo ⟨none, 1, 4, 4, 100, 200⟩ 0 = some u ∧
      average_tempo ⟨none, 1, 4, 4, 100, 200⟩ (0 + 1) = some v ∧
      ((100 : ℚ) < 200 → u ≤ v) ∧ ((200 : ℚ) < 100 → v ≤ u) :=
  ramp_staircase_monotone ⟨none, 1, 4, 4, 100, 200⟩ 0 (by decide) (by decide)
    (by decide) (by decide)

/-- C2: the script computes `(a - b) / (log a - log b)` with no
special-case for equal bounds: at `tempo = tempo2 = 120` the log
difference is zero, the division raises `ZeroDivisionError`, and the
conversion dies (`none`) instead of using the common value 120 — both for
the bare log-mean expression and for `entry_frames` on the grammatically
valid entry `4 120-120`. -/
theorem t_eff_equal_bounds_div_zero :
    t_eff 120 120 = none ∧
      entry_frames 48000 ⟨none, 4, 4, 4, 120, 120⟩ = none :=
  ⟨rfl, rfl⟩

/-- C4: for a constant entry (unset `tempo2`, non-degenerate tempo and
denominator) the elapsed frames are exactly
`bars * beats * 240 / (tempo * denom) * samplerate`. -/
theorem entry_frames_const (sr : ℚ) (e : Entry) (h2 : e.tempo2 = 0)
    (ht : e.tempo ≠ 0) (hd : e.denom ≠ 0) :
    entry_frames sr e =
      some ((e.bars : ℝ) * (e.beats : ℝ) * 240 /
            ((e.tempo : ℝ) * (e.denom : ℝ)) * (sr : ℝ)) := by
  have h1 : ¬(e.tempo = 0 ∨ e.denom = 0) := by push_neg; exact ⟨ht, hd⟩
  unfold entry_frames
  rw [if_pos h2, if_neg h1]

/-- Witness for C4: the entry `4 3/4 120` at samplerate 48000 lasts exactly
288000 frames (6 seconds). -/
theorem entry_frames_const_witness :
    entry_frames 48000 ⟨none, 4, 3, 4, 120, 0⟩ = some 288000 := by
  rw [entry_frames_const 48000 ⟨none, 4, 3, 4, 120, 0⟩ rfl (by decide) (by decide)]
  norm_num

/-! ## The movable flag (claim C1) -/

/-- C1 (code bug): run the converter on the two constant entries
`4 3/4 120` then `8 140`.  The four emitted `<TempoMap>` children are, in
order with their `(movable, bar, beat)` data: the initial tempo point and
meter point at the origin (both rightly non-movable), then the second
tempo point at 0-indexed position (bar 4, beat 0) — away from the
timeline start — which is nevertheless emitted with `movable = false`,
because `write_tempo` tests `bar != 0 and beat != 0` where the intended
condition (used correctly by `write_meter`, cf. the movable meter point at
the same bar) is that the position differ from the origin.  Every
constant-tempo change and every ramp point at beat 0 of its bar is
mis-flagged this way. -/
theorem movable_flag_origin_bug :
    (runEntries 48000 initState 0
        [⟨none, 4, 3, 4, 120, 0⟩, ⟨none, 8, 4, 4, 140, 0⟩]).map
      (fun r => r.1.map itemInfo)
    = some [(false, 0, 0), (false, 0, 0), (false, 4, 0), (true, 4, 0)] := rfl

/-! ## Parser guarantees (claims C3 and C10) -/

/-- A successfully read number is non-negative (the grammar has no sign;
the value is assembled from digit runs). -/
theorem readNumber_nonneg {cs : List Char} {q : ℚ} {r : List Char}
    (h : readNumber cs = some (q, r)) : 0 ≤ q := by
  unfold readNumber at h
  split at h
  · exact absurd h (by simp)
  · split at h
    · dsimp only at h
      split at h
      · simp only [Option.some.injEq, Prod.mk.injEq] at h
        rw [← h.1]
        positivity
      · simp only [Option.some.injEq, Prod.mk.injEq] at h
        rw [← h.1]
        positivity
    · simp only [Option.some.injEq, Prod.mk.injEq] at h
      rw [← h.1]
      positivity

/-- A matched ramp target is non-negative. -/
theorem tryTempo2_nonneg {cs : List Char} {q : ℚ}
    (h : (tryTempo2 cs).1 = some q) : 0 ≤ q := by
  unfold tryTempo2 at h
  split at h
  · rename_i r
    split at h
    · simp at h
    · rename_i p hrn
      simp only [Option.some.injEq] at h
      exact h ▸ readNumber_nonneg hrn
  · simp at h

/-- Both tempo fields of any entry produced by the matcher are
non-negative. -/
theorem matchEntry_nonneg {cs : List Char} {e : Entry}
    (h : matchEntry cs = some e) : 0 ≤ e.tempo ∧ 0 ≤ e.tempo2 := by
  unfold matchEntry at h
  dsimp only at h
  split at h
  · simp at h
  · split at h
    · simp at h
    · split at h
      · simp at h
      · rename_i tempo cs4 hrn
        split at h
        · simp only [Option.some.injEq] at h
          constructor
          · rw [← h]
            exact readNumber_nonneg hrn
          · rw [← h]
            cases hq : (tryTempo2 cs4).1 with
            | none => simp [hq]
            | some q2 => simpa [hq] using tryTempo2_nonneg hq
        · simp at h

/-- C3 counterexample: the line `4 0` is accepted by the grammar and the
reader returns an entry whose tempo is 0 — no positivity validation
rejects it before conversion. -/
theorem zero_tempo_line_parses :
    read ["4 0"] = Except.ok [⟨none, 4, 4, 4, 0, 0⟩] := rfl

/-- C3 amended: the parser guarantees only non-negativity — the grammar
has no sign, so a negative tempo or ramp target can never be parsed, but
zero values pass through to the converter unvalidated. -/
theorem parsed_tempo_nonneg (l : String) (e : Entry)
    (h : parse_entry l = Except.ok e) : 0 ≤ e.tempo ∧ 0 ≤ e.tempo2 := by
  unfold parse_entry at h
  split at h
  · simp at h
  · rename_i e2 hm
    simp only [Except.ok.injEq] at h
    subst h
    exact matchEntry_nonneg hm

/-- Witness for the amended C3 at the zero-tempo line `4 0`. -/
theorem parsed_tempo_nonneg_witness :
    0 ≤ (⟨none, 4, 4, 4, 0, 0⟩ : Entry).tempo ∧
      0 ≤ (⟨none, 4, 4, 4, 0, 0⟩ : Entry).tempo2 :=
  parsed_tempo_nonneg ("4 0") ⟨none, 4, 4, 4, 0, 0⟩ rfl

/-- Soundness: `leadEq` recognises exactly the leading segments. -/
theorem leadEq_iff {s b : List Char} : leadEq s b = true ↔ ∃ t, b = s ++ t := by
  induction s generalizing b with
  | nil => simp [leadEq]
  | cons a s ih =>
    cases b with
    | nil => simp [leadEq]
    | cons c t =>
      simp only [leadEq, Bool.and_eq_true, beq_iff_eq, ih, List.cons_append,
        List.cons.injEq]
      constructor
      · rintro ⟨hac, u, hu⟩
        exact ⟨u, hac.symm, hu⟩
      · rintro ⟨u, hca, hu⟩
        exact ⟨hca.symm, u, hu⟩

/-- Soundness: `hasSub` recognises exactly the contiguous substrings. -/
theorem hasSub_iff {small big : List Char} :
    hasSub small big = true ↔ ∃ p t, big = p ++ small ++ t := by
  induction big with
  | nil =>
    simp only [hasSub, leadEq_iff]
    constructor
    · rintro ⟨t, ht⟩
      exact ⟨[], t, by simpa using ht⟩
    · rintro ⟨p, t, hpt⟩
      refine ⟨t, ?_⟩
      have := hpt.symm
      simp only [List.append_assoc, List.append_eq_nil] at this
      simp [this.1, this.2.1, this.2.2]
  | cons c rest ih =>
    simp only [hasSub, Bool.or_eq_true, leadEq_iff, ih]
    constructor
    · rintro (⟨t, ht⟩ | ⟨p, t, hpt⟩)
      · exact ⟨[], t, by simpa using ht⟩
      · exact ⟨c :: p, t, by simp [hpt]⟩
    · rintro ⟨p, t, hpt⟩
      cases p with
      | nil => exact Or.inl ⟨t, by simpa using hpt⟩
      | cons c2 p2 =>
        simp only [List.cons_append, List.cons.injEq] at hpt
        exact Or.inr ⟨p2, t, hpt.2⟩

/-- C10 counterexample: on the malformed line `" foo bar baz"` (one
leading space) the read aborts with the parse error, but the message
contains only the stripped text, not the literal line: the literal line
text does not occur in the message. -/
theorem padded_line_literal_not_in_message :
    read [" foo bar baz"] = Except.error (parseErrMsg (" foo bar baz")) ∧
      hasSub (" foo bar baz").data (parseErrMsg (" foo bar baz")).data = false :=
  ⟨rfl, rfl⟩

/-- C10 amended: a non-blank line the entry grammar rejects makes the
whole read fail at that line — no entries are produced — with the fixed
message naming the line stripped of surrounding whitespace, which the
message therefore contains as a contiguous substring. -/
theorem first_bad_line_aborts (pre post : List String) (l : String)
    (hpre : ∀ l2 ∈ pre, is_blank l2 = true ∨ ∃ e, matchEntry l2.data = some e)
    (hbl : is_blank l = false) (hbad : matchEntry l.data = none) :
    read (pre ++ l :: post) = Except.error (parseErrMsg l) ∧
      hasSub (pyStrip l).data (parseErrMsg l).data = true := by
  constructor
  · unfold read
    induction pre with
    | nil =>
      have hfil : List.filter (fun s => !is_blank s) (l :: post)
          = l :: List.filter (fun s => !is_blank s) post := by
        simp [List.filter_cons, hbl]
      rw [List.nil_append, hfil]
      unfold parseAll parse_entry
      rw [hbad]
    | cons p pre2 ih =>
      have htail : ∀ l2 ∈ pre2, is_blank l2 = true ∨ ∃ e, matchEntry l2.data = some e :=
        fun l2 hl2 => hpre l2 (by simp [hl2])
      by_cases hpb : is_blank p = true
      · have hfil : List.filter (fun s => !is_blank s) (p :: (pre2 ++ l :: post))
            = List.filter (fun s => !is_blank s) (pre2 ++ l :: post) := by
          simp [List.filter_cons, hpb]
        rw [List.cons_append, hfil]
        exact ih htail
      · rcases hpre p (by simp) with hb | ⟨e, he⟩
        · exact absurd hb hpb
        · have hp : parse_entry p = Except.ok e := by
            unfold parse_entry
            rw [he]
          have hfil : List.filter (fun s => !is_blank s) (p :: (pre2 ++ l :: post))
              = p :: List.filter (fun s => !is_blank s) (pre2 ++ l :: post) := by
            simp [List.filter_cons, hpb]
          rw [List.cons_append, hfil]
          unfold parseAll
          rw [hp, ih htail]
  · rw [hasSub_iff]
    refine ⟨("could not parse tempomap entry:\n").data, [], ?_⟩
    have : parseErrMsg l = "could not parse tempomap entry:\n" ++ pyStrip l := rfl
    rw [this]
    simp

/-- Witness for the amended C10: two good lines around `foo bar baz`. -/
theorem first_bad_line_aborts_witness :
    read ["4 120", "foo bar baz", "8 140"] =
        Except.error (parseErrMsg ("foo bar baz")) ∧
      hasSub (pyStrip ("foo bar baz")).data (parseErrMsg ("foo bar baz")).data = true :=
  first_bad_line_aborts ["4 120"] ["8 140"] "foo bar baz"
    (by
      intro l2 hl2
      simp only [List.mem_singleton] at hl2
      subst hl2
      exact Or.inr ⟨⟨none, 4, 4, 4, 120, 0⟩, rfl⟩)
    rfl rfl

/-! ## Durations of valid entries -/

/-- A valid entry accrues a well-defined number of frames, strictly
positive when the samplerate is. -/
theorem entry_frames_spec (sr : ℚ) {e : Entry} (hv : ValidEntry e) :
    ∃ f : ℝ, entry_frames sr e = some f ∧ (0 < sr → 0 < f) := by
  obtain ⟨ht, hbars, hbeats, hdenom, ht2⟩ := hv
  have hbR : (0 : ℝ) < (e.bars : ℝ) := by exact_mod_cast hbars
  have hbeR : (0 : ℝ) < (e.beats : ℝ) := by exact_mod_cast hbeats
  have hdR : (0 : ℝ) < (e.denom : ℝ) := by exact_mod_cast hdenom
  have htR : (0 : ℝ) < ((e.tempo : ℚ) : ℝ) := by exact_mod_cast ht
  rcases ht2 with h0 | ⟨ht2pos, ht2ne⟩
  · have hguard : ¬(e.tempo = 0 ∨ e.denom = 0) := by
      push_neg
      exact ⟨ne_of_gt ht, by omega⟩
    have heq : entry_frames sr e
        = some ((e.bars : ℝ) * (e.beats : ℝ) * 240 /
                ((e.tempo : ℝ) * (e.denom : ℝ)) * (sr : ℝ)) := by
      unfold entry_frames
      rw [if_pos h0, if_neg hguard]
    refine ⟨_, heq, fun hsr => ?_⟩
    have hsrR : (0 : ℝ) < (sr : ℝ) := by exact_mod_cast hsr
    exact mul_pos (div_pos (mul_pos (mul_pos hbR hbeR) (by norm_num))
      (mul_pos htR hdR)) hsrR
  · obtain ⟨t, hts, htpos, _⟩ := t_eff_between ht ht2pos (Ne.symm ht2ne)
    have ht20 : ¬(e.tempo2 = 0) := ne_of_gt ht2pos
    have hguard : ¬(t * (e.denom : ℝ) = 0) := ne_of_gt (mul_pos htpos hdR)
    have heq : entry_frames sr e
        = some ((e.bars : ℝ) * (e.beats : ℝ) * 240 /
                (t * (e.denom : ℝ)) * (sr : ℝ)) := by
      unfold entry_frames
      rw [if_neg ht20, hts]
      dsimp only
      rw [if_neg hguard]
    refine ⟨_, heq, fun hsr => ?_⟩
    have hsrR : (0 : ℝ) < (sr : ℝ) := by exact_mod_cast hsr
    exact mul_pos (div_pos (mul_pos (mul_pos hbR hbeR) (by norm_num))
      (mul_pos htpos hdR)) hsrR

/-! ## The post-ramp tempo sentinel (claim C6) -/

/-- C6: after processing any valid entry `e1` the loop state records
`e1.tempo` if `e1` was constant and the `0` sentinel if `e1` was a ramp;
consequently a following constant entry with positive tempo always emits a
tempo point at its start position after a ramp — even when its tempo
equals `e1.tempo` — while after a constant `e1` an equal-tempo constant
successor emits no tempo point. -/
theorem ramp_resets_state_tempo (sr : ℚ) (s : State) (e1 e2 : Entry)
    (hv1 : ValidEntry e1) (h2 : e2.tempo2 = 0)
    (hpos : 0 < e2.tempo) :
    ∃ s2, advance sr s e1 = some s2 ∧
      (e1.tempo2 ≠ 0 →
        s2.tempo = 0 ∧
          (write_tempomap_entry s2 e2).1
            = some [write_tempo s2.bars 0 (e2.tempo : ℝ)]) ∧
      (e1.tempo2 = 0 →
        s2.tempo = e1.tempo ∧
          (e2.tempo = e1.tempo →
            (write_tempomap_entry s2 e2).1 = some [])) := by
  obtain ⟨f, hf, _⟩ := entry_frames_spec sr hv1
  have hadv : advance sr s e1 = some
      { frames := s.frames + f, bars := s.bars + e1.bars, beats := e1.beats,
        denom := e1.denom, tempo := if e1.tempo2 = 0 then e1.tempo else 0 } := by
    unfold advance
    rw [hf]
  refine ⟨_, hadv, ?_, ?_⟩
  · intro hr
    have htempo : (if e1.tempo2 = 0 then e1.tempo else 0) = 0 := if_neg hr
    refine ⟨htempo, ?_⟩
    unfold write_tempomap_entry
    dsimp only
    rw [htempo, if_pos ⟨ne_of_gt hpos, h2⟩]
  · intro hc
    have htempo : (if e1.tempo2 = 0 then e1.tempo else 0) = e1.tempo := if_pos hc
    refine ⟨htempo, fun heq => ?_⟩
    unfold write_tempomap_entry
    dsimp only
    rw [htempo, if_neg (by simp [heq]), if_neg (by simp [h2])]

/-- Witness for C6: a ramp `1 4/4 100-200` followed (in the interesting
branch) by the constant entry `1 4/4 100`, whose tempo equals the ramp
start tempo and which must still emit a tempo point. -/
theorem ramp_resets_state_tempo_witness :
    ∃ s2, advance 48000 initState ⟨none, 1, 4, 4, 100, 200⟩ = some s2 ∧
      ((200 : ℚ) ≠ 0 →
        s2.tempo = 0 ∧
          (write_tempomap_entry s2 ⟨none, 1, 4, 4, 100, 0⟩).1
            = some [write_tempo s2.bars 0 ((100 : ℚ) : ℝ)]) ∧
      ((200 : ℚ) = 0 →
        s2.tempo = 100 ∧
          ((100 : ℚ) = 100 →
            (write_tempomap_entry s2 ⟨none, 1, 4, 4, 100, 0⟩).1 = some [])) :=
  ramp_resets_state_tempo 48000 initState ⟨none, 1, 4, 4, 100, 200⟩
    ⟨none, 1, 4, 4, 100, 0⟩ (by decide) rfl (by decide)

/-! ## Structure of the entry walk -/

/-- Totality: `optionMapList` succeeds when every element does. -/
theorem optionMapList_total {f : α → Option β} {l : List α}
    (h : ∀ a ∈ l, ∃ b, f a = some b) :
    ∃ bl, optionMapList f l = some bl := by
  induction l with
  | nil => exact ⟨[], rfl⟩
  | cons a l ih =>
    obtain ⟨b, hb⟩ := h a (by simp)
    obtain ⟨bl, hbl⟩ := ih (fun x hx => h x (by simp [hx]))
    refine ⟨b :: bl, ?_⟩
    unfold optionMapList
    rw [hb, hbl]

/-- Conversely, a successful `optionMapList` succeeded on every element. -/
theorem optionMapList_inv {f : α → Option β} {l : List α} {bl : List β}
    (h : optionMapList f l = some bl) : ∀ a ∈ l, ∃ b, f a = some b := by
  induction l generalizing bl with
  | nil => simp
  | cons a l ih =>
    unfold optionMapList at h
    cases hf : f a with
    | none => rw [hf] at h; exact absurd h (by simp)
    | some b =>
      rw [hf] at h
      cases hrest : optionMapList f l with
      | none => rw [hrest] at h; exact absurd h (by simp)
      | some bl2 =>
        intro x hx
        rcases List.mem_cons.mp hx with hxa | hxl
        · exact ⟨b, hxa ▸ hf⟩
        · exact ih hrest x hxl

/-- Inside a valid ramp entry every in-range beat has a well-defined
average tempo. -/
theorem average_tempo_some {e : Entry} (hv : ValidEntry e)
    (hr : e.tempo2 ≠ 0) {x : ℕ} (hx : x < e.bars * e.beats) :
    ∃ u, average_tempo e x = some u := by
  obtain ⟨ht, _, _, _, ht2⟩ := hv
  rcases ht2 with h0 | ⟨ht2pos, ht2ne⟩
  · exact absurd h0 hr
  · have hn : e.bars * e.beats ≠ 0 := by omega
    have p0 : 0 < stepT e x := stepT_pos ht ht2pos (by omega)
    have p1 : 0 < stepT e (x + 1) := stepT_pos ht ht2pos (by omega)
    obtain ⟨u, hu, _⟩ := t_eff_between p0 p1 (stepT_succ_ne hn ht2ne x)
    refine ⟨u, ?_⟩
    unfold average_tempo
    rw [if_neg hn]
    exact hu

/-- The tempo half of `write_tempomap_entry` never dies on a valid
entry. -/
theorem wtme_fst_some (s : State) {e : Entry} (hv : ValidEntry e) :
    ∃ tps, (write_tempomap_entry s e).1 = some tps := by
  unfold write_tempomap_entry
  dsimp only
  by_cases hc : e.tempo ≠ s.tempo ∧ e.tempo2 = 0
  · rw [if_pos hc]
    exact ⟨_, rfl⟩
  · rw [if_neg hc]
    by_cases hr : e.tempo2 ≠ 0
    · rw [if_pos hr]
      apply optionMapList_total
      intro x hx
      obtain ⟨u, hu⟩ := average_tempo_some hv hr (List.mem_range.mp hx)
      exact ⟨_, by rw [hu]; rfl⟩
    · rw [if_neg hr]
      exact ⟨[], rfl⟩

/-- The fields of the state produced by `advance`. -/
theorem advance_fields {sr : ℚ} {s t : State} {e : Entry}
    (h : advance sr s e = some t) :
    t.bars = s.bars + e.bars ∧ t.beats = e.beats ∧ t.denom = e.denom ∧
      t.tempo = (if e.tempo2 = 0 then e.tempo else 0) := by
  unfold advance at h
  cases hf : entry_frames sr e with
  | none => rw [hf] at h; exact absurd h (by simp)
  | some f =>
    rw [hf] at h
    simp only [Option.some.injEq] at h
    rw [← h]
    exact ⟨rfl, rfl, rfl, rfl⟩

/-- Survival of `entry_frames` is decided independently of the samplerate: it succeeds or dies independently of the samplerate. -/
theorem entry_frames_some_transfer {sr1 : ℚ} {e : Entry} {f1 : ℝ}
    (h : entry_frames sr1 e = some f1) (sr2 : ℚ) :
    ∃ f2, entry_frames sr2 e = some f2 := by
  unfold entry_frames at h ⊢
  by_cases h2 : e.tempo2 = 0
  · rw [if_pos h2] at h ⊢
    by_cases hg : e.tempo = 0 ∨ e.denom = 0
    · rw [if_pos hg] at h
      exact absurd h (by simp)
    · rw [if_neg hg]
      exact ⟨_, rfl⟩
  · rw [if_neg h2] at h ⊢
    cases ht : t_eff e.tempo e.tempo2 with
    | none => rw [ht] at h; exact absurd h (by simp)
    | some t =>
      rw [ht] at h
      dsimp only at h ⊢
      by_cases hg : t * (e.denom : ℝ) = 0
      · rw [if_pos hg] at h
        exact absurd h (by simp)
      · rw [if_neg hg]
        exact ⟨_, rfl⟩

/-- Survival of `advance`: it succeeds or dies independently of samplerate, state and
counter. -/
theorem advance_some_transfer {sr1 : ℚ} {s1 : State} {e : Entry} {t1 : State}
    (h : advance sr1 s1 e = some t1) (sr2 : ℚ) (s2 : State) :
    ∃ t2, advance sr2 s2 e = some t2 := by
  unfold advance at h ⊢
  cases hf : entry_frames sr1 e with
  | none => rw [hf] at h; exact absurd h (by simp)
  | some f =>
    obtain ⟨f2, hf2⟩ := entry_frames_some_transfer hf sr2
    rw [hf2]
    exact ⟨_, rfl⟩

/-- The tempo half of `write_tempomap_entry` succeeds or dies
independently of the state. -/
theorem wtme_fst_some_transfer {s1 : State} {e : Entry} {tps : List TempoPt}
    (h : (write_tempomap_entry s1 e).1 = some tps) (s2 : State) :
    ∃ tps2, (write_tempomap_entry s2 e).1 = some tps2 := by
  unfold write_tempomap_entry at h ⊢
  dsimp only at h ⊢
  by_cases hc2 : e.tempo ≠ s2.tempo ∧ e.tempo2 = 0
  · rw [if_pos hc2]
    exact ⟨_, rfl⟩
  · rw [if_neg hc2]
    by_cases hr : e.tempo2 ≠ 0
    · rw [if_pos hr]
      have hc1 : ¬(e.tempo ≠ s1.tempo ∧ e.tempo2 = 0) := fun hand => hr hand.2
      rw [if_neg hc1, if_pos hr] at h
      apply optionMapList_total
      intro x hx
      obtain ⟨b, hb⟩ := optionMapList_inv h x hx
      cases ha : average_tempo e x with
      | none => rw [ha] at hb; exact absurd hb (by simp)
      | some u => exact ⟨_, rfl⟩
    · rw [if_neg hr]
      exact ⟨[], rfl⟩

/-- Inversion of one step of the entry walk. -/
theorem runEntries_cons_inv {sr : ℚ} {s : State} {c : ℕ} {e : Entry}
    {rest : List Entry} {tm : List TMItem} {mks : List Location} {s2 : State}
    {c2 : ℕ} (h : runEntries sr s c (e :: rest) = some (tm, mks, s2, c2)) :
    ∃ tps s1 tm2 mks2,
      (write_tempomap_entry s e).1 = some tps ∧
      advance sr s e = some s1 ∧
      runEntries sr s1 (labelCount c e.label) rest = some (tm2, mks2, s2, c2) ∧
      tm = (tps.map TMItem.tempo ++
        (write_tempomap_entry s e).2.map TMItem.meter) ++ tm2 ∧
      mks = labelMarks s c e.label ++ mks2 := by
  unfold runEntries at h
  cases hw : (write_tempomap_entry s e).1 with
  | none => rw [hw] at h; exact absurd h (by simp)
  | some tps =>
    rw [hw] at h
    dsimp only at h
    cases ha : advance sr s e with
    | none => rw [ha] at h; exact absurd h (by simp)
    | some s1 =>
      rw [ha] at h
      dsimp only at h
      cases hr : runEntries sr s1 (labelCount c e.label) rest with
      | none => rw [hr] at h; exact absurd h (by simp)
      | some r3 =>
        obtain ⟨tm2, mks2, s3, c3⟩ := r3
        rw [hr] at h
        dsimp only at h
        simp only [Option.some.injEq, Prod.mk.injEq] at h
        obtain ⟨h1, h2, h3, h4⟩ := h
        subst h3 h4
        exact ⟨tps, s1, tm2, mks2, rfl, rfl, hr, h1.symm, h2.symm⟩

/-- Along a successful walk the markers carry the entry labels in order,
with sequential ids drawn from the counter, whose final value is written
back; every marker is `IsMark`-flagged. -/
theorem runEntries_marker_attrs (sr : ℚ) :
    ∀ (entries : List Entry) (s : State) (c : ℕ)
      {tm : List TMItem} {mks : List Location} {s2 : State} {c2 : ℕ},
      runEntries sr s c entries = some (tm, mks, s2, c2) →
      mks.map Location.name = entries.filterMap Entry.label ∧
      mks.map Location.id = seqIds c (entries.filterMap Entry.label).length ∧
      c2 = c + (entries.filterMap Entry.label).length ∧
      ∀ m ∈ mks, m.flags = "IsMark" := by
  intro entries
  induction entries with
  | nil =>
    intro s c tm mks s2 c2 h
    unfold runEntries at h
    simp only [Option.some.injEq, Prod.mk.injEq] at h
    obtain ⟨h1, h2, _, h4⟩ := h
    subst h1 h2 h4
    simp [seqIds]
  | cons e rest ih =>
    intro s c tm mks s2 c2 h
    obtain ⟨tps, s1, tm2, mks2, _, _, hr, _, hmk⟩ := runEntries_cons_inv h
    cases hl : e.label with
    | none =>
      rw [hl] at hr hmk
      simp only [labelCount, labelMarks, List.nil_append] at hr hmk
      obtain ⟨ihn, ihi, ihc, ihf⟩ := ih s1 c hr
      subst hmk
      refine ⟨?_, ?_, ?_, ?_⟩
      · rw [List.filterMap_cons_none hl]
        exact ihn
      · rw [List.filterMap_cons_none hl]
        exact ihi
      · rw [List.filterMap_cons_none hl]
        exact ihc
      · exact ihf
    | some lbl =>
      rw [hl] at hr hmk
      simp only [labelCount, labelMarks, List.singleton_append] at hr hmk
      obtain ⟨ihn, ihi, ihc, ihf⟩ := ih s1 (c + 1) hr
      subst hmk
      refine ⟨?_, ?_, ?_, ?_⟩
      · rw [List.filterMap_cons_some hl]
        simpa [write_marker] using ihn
      · rw [List.filterMap_cons_some hl]
        simp only [List.length_cons, seqIds, List.map_cons, List.cons.injEq]
        exact ⟨rfl, by simpa using ihi⟩
      · rw [List.filterMap_cons_some hl]
        simp only [List.length_cons]
        omega
      · intro m hm
        rcases List.mem_cons.mp hm with hm1 | hm2
        · subst hm1
          rfl
        · exact ihf m hm2

/-- The entry walk succeeds on valid entries. -/
theorem runEntries_total (sr : ℚ) :
    ∀ (entries : List Entry) (s : State) (c : ℕ),
      (∀ e ∈ entries, ValidEntry e) →
      ∃ tm mks s2 c2, runEntries sr s c entries = some (tm, mks, s2, c2) := by
  intro entries
  induction entries with
  | nil =>
    intro s c _
    exact ⟨[], [], s, c, rfl⟩
  | cons e rest ih =>
    intro s c hv
    have hve : ValidEntry e := hv e (by simp)
    obtain ⟨tps, hw⟩ := wtme_fst_some s hve
    obtain ⟨f, hf, _⟩ := entry_frames_spec sr hve
    have hadv : advance sr s e = some
        { frames := s.frames + f, bars := s.bars + e.bars, beats := e.beats,
          denom := e.denom, tempo := if e.tempo2 = 0 then e.tempo else 0 } := by
      unfold advance
      rw [hf]
    obtain ⟨tm2, mks2, s3, c3, hr⟩ :=
      ih { frames := s.frames + f, bars := s.bars + e.bars, beats := e.beats,
           denom := e.denom, tempo := if e.tempo2 = 0 then e.tempo else 0 }
        (labelCount c e.label) (fun x hx => hv x (by simp [hx]))
    refine ⟨(tps.map TMItem.tempo ++
        (write_tempomap_entry s e).2.map TMItem.meter) ++ tm2,
      labelMarks s c e.label ++ mks2, s3, c3, ?_⟩
    unfold runEntries
    rw [hw]
    dsimp only
    rw [hadv]
    dsimp only
    rw [hr]

/-- Along a successful walk over valid entries (positive samplerate) the
markers sit at or after the initial frame position, at strictly increasing
positions, and the final frame position is not behind the initial one. -/
theorem runEntries_marker_frames (sr : ℚ) (hsr : 0 < sr) :
    ∀ (entries : List Entry) (s : State) (c : ℕ)
      {tm : List TMItem} {mks : List Location} {s2 : State} {c2 : ℕ},
      (∀ e ∈ entries, ValidEntry e) →
      runEntries sr s c entries = some (tm, mks, s2, c2) →
      (∀ m ∈ mks, s.frames ≤ m.start) ∧
      mks.Pairwise (fun m1 m2 => m1.start < m2.start) ∧
      s.frames ≤ s2.frames := by
  intro entries
  induction entries with
  | nil =>
    intro s c tm mks s2 c2 _ h
    unfold runEntries at h
    simp only [Option.some.injEq, Prod.mk.injEq] at h
    obtain ⟨_, h2, h3, _⟩ := h
    subst h2 h3
    simp
  | cons e rest ih =>
    intro s c tm mks s2 c2 hv h
    have hve : ValidEntry e := hv e (by simp)
    obtain ⟨tps, s1, tm2, mks2, _, ha, hr, _, hmk⟩ := runEntries_cons_inv h
    obtain ⟨f, hf, hfpos⟩ := entry_frames_spec sr hve
    have hf' : 0 < f := hfpos hsr
    have hadv : advance sr s e = some
        { frames := s.frames + f, bars := s.bars + e.bars, beats := e.beats,
          denom := e.denom, tempo := if e.tempo2 = 0 then e.tempo else 0 } := by
      unfold advance
      rw [hf]
    have hs1 : s1 =
        { frames := s.frames + f, bars := s.bars + e.bars, beats := e.beats,
          denom := e.denom, tempo := if e.tempo2 = 0 then e.tempo else 0 } := by
      rw [hadv] at ha
      exact (Option.some.inj ha).symm
    have hs1f : s1.frames = s.frames + f := by rw [hs1]
    obtain ⟨ihlb, ihpw, ihend⟩ :=
      ih s1 (labelCount c e.label) (fun x hx => hv x (by simp [hx])) hr
    have hlb2 : ∀ m ∈ mks2, s.frames + f ≤ m.start := by
      intro m hm
      have := ihlb m hm
      rw [hs1f] at this
      exact this
    have hend : s.frames ≤ s2.frames := by
      rw [hs1f] at ihend
      linarith
    subst hmk
    cases hl : e.label with
    | none =>
      simp only [labelMarks, List.nil_append]
      exact ⟨fun m hm => le_trans (by linarith) (hlb2 m hm), ihpw, hend⟩
    | some lbl =>
      simp only [labelMarks, List.singleton_append]
      refine ⟨?_, ?_, hend⟩
      · intro m hm
        rcases List.mem_cons.mp hm with hm1 | hm2
        · subst hm1
          exact le_refl _
        · exact le_trans (by linarith) (hlb2 m hm2)
      · rw [List.pairwise_cons]
        refine ⟨fun m hm => ?_, ihpw⟩
        have := hlb2 m hm
        show (write_marker s.frames lbl c).start < m.start
        unfold write_marker
        dsimp only
        linarith

/-- Congruence: `write_tempomap_entry` reads only the bars, meter and tempo of the
state, never its frame position. -/
theorem write_tempomap_entry_congr {s1 s2 : State} (e : Entry)
    (hb : s1.bars = s2.bars) (hbe : s1.beats = s2.beats)
    (hd : s1.denom = s2.denom) (ht : s1.tempo = s2.tempo) :
    write_tempomap_entry s1 e = write_tempomap_entry s2 e := by
  unfold write_tempomap_entry
  rw [hb, hbe, hd, ht]

/-- The emitted `<TempoMap>` children depend only on the entries and the
musical part of the starting state — not on the samplerate, the frame
position or the id counter. -/
theorem runEntries_tm_congr :
    ∀ (entries : List Entry) {sr1 sr2 : ℚ} {s1 s2 : State} {c1 c2 : ℕ}
      {tm1 : List TMItem} {mks1 : List Location} {s1f : State} {c1f : ℕ}
      {tm2 : List TMItem} {mks2 : List Location} {s2f : State} {c2f : ℕ},
      runEntries sr1 s1 c1 entries = some (tm1, mks1, s1f, c1f) →
      runEntries sr2 s2 c2 entries = some (tm2, mks2, s2f, c2f) →
      s1.bars = s2.bars → s1.beats = s2.beats → s1.denom = s2.denom →
      s1.tempo = s2.tempo → tm1 = tm2 := by
  intro entries
  induction entries with
  | nil =>
    intro sr1 sr2 s1 s2 c1 c2 tm1 mks1 s1f c1f tm2 mks2 s2f c2f h1 h2 _ _ _ _
    unfold runEntries at h1 h2
    simp only [Option.some.injEq, Prod.mk.injEq] at h1 h2
    rw [← h1.1, ← h2.1]
  | cons e rest ih =>
    intro sr1 sr2 sa sb c1 c2 tm1 mks1 s1f c1f tm2 mks2 s2f c2f h1 h2 hb hbe hd ht
    obtain ⟨tpsa, sa1, tma2, mksa2, hwa, haa, hra, htma, _⟩ := runEntries_cons_inv h1
    obtain ⟨tpsb, sb1, tmb2, mksb2, hwb, hab, hrb, htmb, _⟩ := runEntries_cons_inv h2
    have hwe : write_tempomap_entry sa e = write_tempomap_entry sb e :=
      write_tempomap_entry_congr e hb hbe hd ht
    have htps : tpsa = tpsb := by
      have hwb2 := hwb
      rw [← hwe] at hwb2
      exact Option.some.inj (hwa.symm.trans hwb2)
    obtain ⟨ba, bea, da, ta⟩ := advance_fields haa
    obtain ⟨bb, beb, db, tb⟩ := advance_fields hab
    have ihtm : tma2 = tmb2 :=
      ih hra hrb (by rw [ba, bb, hb]) (by rw [bea, beb]) (by rw [da, db])
        (by rw [ta, tb])
    rw [htma, htmb, htps, hwe, ihtm]

/-- Two walks from the same state with the same samplerate but different
id counters produce the same `<TempoMap>` children, markers differing only
in their ids, and the same final state. -/
theorem runEntries_ctr_congr :
    ∀ (entries : List Entry) {sr : ℚ} {s : State} {c1 c2 : ℕ}
      {tm1 : List TMItem} {mks1 : List Location} {s1f : State} {c1f : ℕ}
      {tm2 : List TMItem} {mks2 : List Location} {s2f : State} {c2f : ℕ},
      runEntries sr s c1 entries = some (tm1, mks1, s1f, c1f) →
      runEntries sr s c2 entries = some (tm2, mks2, s2f, c2f) →
      tm1 = tm2 ∧ mks1.map stripId = mks2.map stripId ∧ s1f = s2f := by
  intro entries
  induction entries with
  | nil =>
    intro sr s c1 c2 tm1 mks1 s1f c1f tm2 mks2 s2f c2f h1 h2
    unfold runEntries at h1 h2
    simp only [Option.some.injEq, Prod.mk.injEq] at h1 h2
    rw [← h1.1, ← h2.1, ← h1.2.1, ← h2.2.1, ← h1.2.2.1, ← h2.2.2.1]
    exact ⟨rfl, rfl, rfl⟩
  | cons e rest ih =>
    intro sr s c1 c2 tm1 mks1 s1f c1f tm2 mks2 s2f c2f h1 h2
    obtain ⟨tpsa, sa1, tma2, mksa2, hwa, haa, hra, htma, hmka⟩ := runEntries_cons_inv h1
    obtain ⟨tpsb, sb1, tmb2, mksb2, hwb, hab, hrb, htmb, hmkb⟩ := runEntries_cons_inv h2
    have htps : tpsa = tpsb := Option.some.inj (hwa.symm.trans hwb)
    have hs1 : sa1 = sb1 := Option.some.inj (haa.symm.trans hab)
    rw [← hs1] at hrb
    obtain ⟨ihtm, ihmk, ihsf⟩ := ih hra hrb
    refine ⟨?_, ?_, ihsf⟩
    · rw [htma, htmb, htps, ihtm]
    · rw [hmka, hmkb, List.map_append, List.map_append, ihmk]
      cases e.label with
      | none => rfl
      | some lbl => rfl

/-- Whether the walk survives depends only on the entries, not on the
samplerate, starting state or counter. -/
theorem runEntries_some_transfer :
    ∀ (entries : List Entry) {sr1 : ℚ} {s1 : State} {c1 : ℕ}
      {tm1 : List TMItem} {mks1 : List Location} {s1f : State} {c1f : ℕ},
      runEntries sr1 s1 c1 entries = some (tm1, mks1, s1f, c1f) →
      ∀ (sr2 : ℚ) (s2 : State) (c2 : ℕ),
        ∃ tm2 mks2 s2f c2f,
          runEntries sr2 s2 c2 entries = some (tm2, mks2, s2f, c2f) := by
  intro entries
  induction entries with
  | nil =>
    intro sr1 s1 c1 tm1 mks1 s1f c1f _ sr2 s2 c2
    exact ⟨[], [], s2, c2, rfl⟩
  | cons e rest ih =>
    intro sr1 s1 c1 tm1 mks1 s1f c1f h sr2 s2 c2
    obtain ⟨tps, t1, tm2, mks2, hw, ha, hr, _, _⟩ := runEntries_cons_inv h
    obtain ⟨tps2, hw2⟩ := wtme_fst_some_transfer hw s2
    obtain ⟨t2, ha2⟩ := advance_some_transfer ha sr2 s2
    obtain ⟨tm3, mks3, s3f, c3f, hr3⟩ := ih hr sr2 t2 (labelCount c2 e.label)
    refine ⟨(tps2.map TMItem.tempo ++
        (write_tempomap_entry s2 e).2.map TMItem.meter) ++ tm3,
      labelMarks s2 c2 e.label ++ mks3, s3f, c3f, ?_⟩
    unfold runEntries
    rw [hw2]
    dsimp only
    rw [ha2]
    dsimp only
    rw [hr3]

/-- Splitting the written locations list back into markers and
non-markers. -/
theorem markersOf_write_parts (locs mks : List Location)
    (hflags : ∀ m ∈ mks, m.flags = "IsMark") :
    (locs.filter (fun l => l.flags != "IsMark") ++ mks).filter
        (fun l => l.flags == "IsMark") = mks ∧
      (locs.filter (fun l => l.flags != "IsMark") ++ mks).filter
        (fun l => l.flags != "IsMark")
        = locs.filter (fun l => l.flags != "IsMark") := by
  constructor
  · rw [List.filter_append]
    have h1 : (locs.filter (fun l => l.flags != "IsMark")).filter
        (fun l => l.flags == "IsMark") = [] := by
      rw [List.filter_filter]
      apply List.filter_eq_nil_iff.mpr
      intro a _
      by_cases hfa : a.flags = "IsMark" <;> simp [hfa]
    have h2 : mks.filter (fun l => l.flags == "IsMark") = mks :=
      List.filter_eq_self.2 (fun m hm => by simp [hflags m hm])
    rw [h1, h2, List.nil_append]
  · rw [List.filter_append]
    have h1 : (locs.filter (fun l => l.flags != "IsMark")).filter
        (fun l => l.flags != "IsMark") = locs.filter (fun l => l.flags != "IsMark") :=
      List.filter_eq_self.2 (fun m hm => (List.mem_filter.mp hm).2)
    have h2 : mks.filter (fun l => l.flags != "IsMark") = [] := by
      apply List.filter_eq_nil_iff.mpr
      intro m hm
      simp [hflags m hm]
    rw [h1, h2, List.append_nil]

/-! ## Markers along the walk (claim C7) -/

/-- C7: on valid entries with a positive samplerate the run succeeds and
emits exactly one marker per labelled entry, named after the labels in
entry order, at strictly increasing cumulative frame positions. -/
theorem markers_entry_order_strict (sr : ℚ) (hsr : 0 < sr) (c : ℕ)
    (entries : List Entry) (hv : ∀ e ∈ entries, ValidEntry e) :
    ∃ tm mks s2 c2,
      runEntries sr initState c entries = some (tm, mks, s2, c2) ∧
      mks.map Location.name = entries.filterMap Entry.label ∧
      (mks.map Location.start).Pairwise (· < ·) := by
  obtain ⟨tm, mks, s2, c2, hrun⟩ := runEntries_total sr entries initState c hv
  obtain ⟨hn, _, _, _⟩ := runEntries_marker_attrs sr entries initState c hrun
  obtain ⟨_, hpw, _⟩ := runEntries_marker_frames sr hsr entries initState c hv hrun
  exact ⟨tm, mks, s2, c2, hrun, hn, List.pairwise_map.mpr hpw⟩

/-- Witness for C7: three valid entries, labels `A` and `B`. -/
theorem markers_entry_order_strict_witness :
    ∃ tm mks s2 c2,
      runEntries 48000 initState 0 exampleEntries3 = some (tm, mks, s2, c2) ∧
      mks.map Location.name = exampleEntries3.filterMap Entry.label ∧
      (mks.map Location.start).Pairwise (· < ·) :=
  markers_entry_order_strict 48000 (by decide) 0 exampleEntries3 (by decide)

/-! ## The write contract on the session document (claim C9) -/

/-- C9: on valid entries the converter succeeds and (i) leaves the
non-marker locations exactly as they were, (ii) emits the markers named
after the labels with fresh sequential ids starting at the document id
counter, (iii) writes the advanced counter back to the root attribute, and
(iv) replaces the whole tempo-map section with content that is the same
whatever document it is run against. -/
theorem write_session_contract (doc : Doc) (entries : List Entry)
    (hv : ∀ e ∈ entries, ValidEntry e) :
    ∃ d2, write doc entries = some d2 ∧
      d2.locations.filter (fun l => l.flags != "IsMark")
        = doc.locations.filter (fun l => l.flags != "IsMark") ∧
      (markersOf d2).map Location.name = entries.filterMap Entry.label ∧
      (markersOf d2).map Location.id
        = seqIds doc.id_counter (entries.filterMap Entry.label).length ∧
      d2.id_counter = doc.id_counter + (entries.filterMap Entry.label).length ∧
      ∀ (doc3 d3 : Doc), write doc3 entries = some d3 →
        d3.tempomap = d2.tempomap := by
  obtain ⟨tm, mks, s2, c2, hrun⟩ :=
    runEntries_total doc.samplerate entries initState doc.id_counter hv
  obtain ⟨hn, hi, hc, hflags⟩ :=
    runEntries_marker_attrs doc.samplerate entries initState doc.id_counter hrun
  have hw : write doc entries = some
      { samplerate := doc.samplerate, id_counter := c2, tempomap := tm,
        locations := doc.locations.filter (fun l => l.flags != "IsMark") ++ mks } := by
    unfold write
    rw [hrun]
  obtain ⟨hsplit1, hsplit2⟩ := markersOf_write_parts doc.locations mks hflags
  have hmof : markersOf
      { samplerate := doc.samplerate, id_counter := c2, tempomap := tm,
        locations := doc.locations.filter (fun l => l.flags != "IsMark") ++ mks }
      = mks := by
    unfold markersOf
    exact hsplit1
  refine ⟨_, hw, hsplit2, ?_, ?_, hc, ?_⟩
  · rw [hmof]
    exact hn
  · rw [hmof]
    exact hi
  · intro doc3 d3 h3
    unfold write at h3
    cases hr3 : runEntries doc3.samplerate initState doc3.id_counter entries with
    | none => rw [hr3] at h3; exact absurd h3 (by simp)
    | some r3 =>
      obtain ⟨tm3, mks3, s3f, c3f⟩ := r3
      rw [hr3] at h3
      simp only [Option.some.injEq] at h3
      have htm3 : tm3 = tm :=
        runEntries_tm_congr entries hr3 hrun rfl rfl rfl rfl
      rw [← h3]
      exact htm3

/-- Witness for C9 against a document carrying stale content. -/
theorem write_session_contract_witness :
    ∃ d2, write exampleDoc2 exampleEntries = some d2 ∧
      d2.locations.filter (fun l => l.flags != "IsMark")
        = exampleDoc2.locations.filter (fun l => l.flags != "IsMark") ∧
      (markersOf d2).map Location.name = exampleEntries.filterMap Entry.label ∧
      (markersOf d2).map Location.id
        = seqIds exampleDoc2.id_counter (exampleEntries.filterMap Entry.label).length ∧
      d2.id_counter
        = exampleDoc2.id_counter + (exampleEntries.filterMap Entry.label).length ∧
      ∀ (doc3 d3 : Doc), write doc3 exampleEntries = some d3 →
        d3.tempomap = d2.tempomap :=
  write_session_contract exampleDoc2 exampleEntries (by decide)

/-! ## Re-running the converter (claim C8) -/

/-- C8 counterexample: write once against the pristine document, then
re-run on the result.  The marker sections are not identical: the rerun
allocates the next id (1) where the single run allocated 0, because the
advanced id counter was persisted. -/
theorem rerun_marker_ids_differ :
    ((write exampleDoc exampleEntries).bind
        (fun d => write d exampleEntries)).map
      (fun d => (markersOf d).map Location.id) = some [1] ∧
    (write exampleDoc exampleEntries).map
      (fun d => (markersOf d).map Location.id) = some [0] ∧
    ([1] : List ℕ) ≠ [0] :=
  ⟨rfl, rfl, by decide⟩

/-- C8 amended: re-running the converter on its own output yields an
identical tempo-map section and a marker section identical up to the
freshly allocated ids (same names, positions, flags and lock state in the
same order); only the ids — drawn from the persisted counter — advance. -/
theorem rerun_sections_match_up_to_ids (doc : Doc) (entries : List Entry)
    (d1 : Doc) (h1 : write doc entries = some d1) :
    ∃ d2, write d1 entries = some d2 ∧ d2.tempomap = d1.tempomap ∧
      (markersOf d2).map stripId = (markersOf d1).map stripId := by
  unfold write at h1
  cases hr1 : runEntries doc.samplerate initState doc.id_counter entries with
  | none => rw [hr1] at h1; exact absurd h1 (by simp)
  | some r1 =>
    obtain ⟨tm1, mks1, s1f, c1f⟩ := r1
    rw [hr1] at h1
    simp only [Option.some.injEq] at h1
    have hsr1 : d1.samplerate = doc.samplerate := by rw [← h1]
    obtain ⟨tm2, mks2, s2f, c2f, hr2⟩ :=
      runEntries_some_transfer entries hr1 d1.samplerate initState d1.id_counter
    have hw2 : write d1 entries = some
        { samplerate := d1.samplerate, id_counter := c2f, tempomap := tm2,
          locations := d1.locations.filter (fun l => l.flags != "IsMark") ++ mks2 } := by
      unfold write
      rw [hr2]
    have hr2' : runEntries doc.samplerate initState d1.id_counter entries
        = some (tm2, mks2, s2f, c2f) := by
      rw [← hsr1]
      exact hr2
    obtain ⟨htm, hmks, _⟩ := runEntries_ctr_congr entries hr2' hr1
    obtain ⟨_, _, _, hflags1⟩ :=
      runEntries_marker_attrs doc.samplerate entries initState doc.id_counter hr1
    obtain ⟨_, _, _, hflags2⟩ :=
      runEntries_marker_attrs d1.samplerate entries initState d1.id_counter hr2
    have hm1 : markersOf d1 = mks1 := by
      unfold markersOf
      rw [← h1]
      exact (markersOf_write_parts doc.locations mks1 hflags1).1
    have hm2 : markersOf
        { samplerate := d1.samplerate, id_counter := c2f, tempomap := tm2,
          locations := d1.locations.filter (fun l => l.flags != "IsMark") ++ mks2 }
        = mks2 := by
      unfold markersOf
      exact (markersOf_write_parts d1.locations mks2 hflags2).1
    refine ⟨_, hw2, ?_, ?_⟩
    · rw [← h1]
      exact htm
    · rw [hm1, hm2]
      exact hmks

/-- Witness for the amended C8 at the pristine example document. -/
theorem rerun_sections_match_up_to_ids_witness :
    ∃ d2, write exD1 exampleEntries = some d2 ∧ d2.tempomap = exD1.tempomap ∧
      (markersOf d2).map stripId = (markersOf exD1).map stripId :=
  rerun_sections_match_up_to_ids exampleDoc exampleEntries exD1 rfl

end Klick2Ardour
